import Mathlib

/-!
Verification of the Google Maps scraper repository against its natural-language
specification.  The Python sources `optimized_scraper.py` and
`enhanced_google_maps_scraper.py` are shallowly embedded below: pure helper
routines become Lean functions, the stateful harvest loops become explicit
state-passing recursions, and Python exceptions are modelled with `Except`.
-/

/-! ## PhoneNormalizer (`OptimizedGoogleMapsScraper._format_phone_number`) -/

/-- `re.sub(r'\D', '', phone)`: keep only the digit characters. -/
def stripNonDigits (l : List Char) : List Char := l.filter Char.isDigit

/-- The validated leading-digit set `'6789'` used for Indian mobile numbers. -/
def leadingDigits : List Char := ['6', '7', '8', '9']

/-- `digits[i] in '6789'` with Python's bounds behaviour made explicit:
the callers guard the index by a length test, so the `none` case is
unreachable there. -/
def leadingCheck (digits : List Char) (i : Nat) : Bool :=
  match digits.get? i with
  | some c => leadingDigits.contains c
  | none => false

/-- The fixed table of known international calling codes from
`_format_phone_number` (`digits.startswith((...))`). -/
def countryCodes : List String :=
  ["1", "7", "20", "27", "30", "31", "32", "33", "34", "36", "39",
   "40", "41", "43", "44", "45", "46", "47", "48", "49", "51", "52",
   "53", "54", "55", "56", "57", "58", "60", "61", "62", "63", "64",
   "65", "66", "81", "82", "84", "86", "90", "91", "92", "93", "94",
   "95", "98", "211", "212", "213", "216", "218", "220", "221", "222",
   "223", "224", "225", "226", "227", "228", "229", "230", "231", "232",
   "233", "234", "235", "236", "237", "238", "239", "240", "241", "242",
   "243", "244", "245", "246", "247", "248", "249", "250", "251", "252",
   "253", "254", "255", "256", "257", "258", "260", "261", "262", "263",
   "264", "265", "266", "267", "268", "269", "290", "291", "297", "298",
   "299", "350", "351", "352", "353", "354", "355", "356", "357", "358",
   "359", "370", "371", "372", "373", "374", "375", "376", "377", "378",
   "379", "380", "381", "382", "383", "385", "386", "387", "389", "420",
   "421", "423", "500", "501", "502", "503", "504", "505", "506", "507",
   "508", "509", "590", "591", "592", "593", "594", "595", "596", "597",
   "598", "599", "670", "672", "673", "674", "675", "676", "677", "678",
   "679", "680", "681", "682", "683", "685", "686", "687", "688", "689",
   "690", "691", "692", "693", "694", "695", "696", "697", "698", "850",
   "852", "853", "855", "856", "870", "872", "880", "886", "960", "961",
   "962", "963", "964", "965", "966", "967", "968", "970", "971", "972",
   "973", "974", "975", "976", "977", "992", "993", "994", "995", "996",
   "998"]

/-- `digits.startswith(tuple-of-country-codes)`. -/
def hasCountryCode (digits : List Char) : Bool :=
  countryCodes.any (fun c => c.data.isPrefixOf digits)

/-- The branch chain of `_format_phone_number` applied to the stripped digit
string (the input is known non-empty at this point). -/
def formatDigits (digits : List Char) : Option (List Char) :=
  if digits.length == 10 && leadingCheck digits 0 then
    some ('+' :: '9' :: '1' :: digits)
  else if digits.length == 12 && List.isPrefixOf ['9', '1'] digits
      && leadingCheck digits 2 then
    some ('+' :: digits)
  else if 10 ≤ digits.length then
    if hasCountryCode digits then
      some ('+' :: digits)
    else if digits.length == 10 then
      some ('+' :: '1' :: digits)
    else none
  else none

/-- `OptimizedGoogleMapsScraper._format_phone_number`.  `none` models Python
`None`; the `p = ""` case models `if not phone` catching the empty string. -/
def formatPhoneNumber (phone : Option String) : Option String :=
  match phone with
  | none => none
  | some p =>
    if p = "" then none
    else
      let digits := stripNonDigits p.data
      if digits = [] then none
      else (formatDigits digits).map String.mk

/-- Python errors that the embedded code could conceivably raise. -/
inductive PyError where
  | indexError
  | attributeError
  deriving DecidableEq, Repr

/-- Checked list subscript, modelling Python `digits[i]` which raises
`IndexError` when out of range. -/
def idxE (l : List Char) (i : Nat) : Except PyError Char :=
  match l.get? i with
  | some c => Except.ok c
  | none => Except.error PyError.indexError

/-- Exception-transparent version of `formatDigits`: every subscript of the
Python source is performed through `idxE`, exactly under the guards the
source evaluates it (Python `and` short-circuits). -/
def formatDigitsE (digits : List Char) : Except PyError (Option (List Char)) :=
  let tail : Except PyError (Option (List Char)) :=
    if 10 ≤ digits.length then
      if hasCountryCode digits then Except.ok (some ('+' :: digits))
      else if digits.length == 10 then Except.ok (some ('+' :: '1' :: digits))
      else Except.ok none
    else Except.ok none
  let rest : Except PyError (Option (List Char)) :=
    if digits.length == 12 && List.isPrefixOf ['9', '1'] digits then
      match idxE digits 2 with
      | Except.error e => Except.error e
      | Except.ok c =>
        if leadingDigits.contains c then Except.ok (some ('+' :: digits)) else tail
    else tail
  if digits.length == 10 then
    match idxE digits 0 with
    | Except.error e => Except.error e
    | Except.ok c =>
      if leadingDigits.contains c then
        Except.ok (some ('+' :: '9' :: '1' :: digits))
      else rest
  else rest

/-- Exception-transparent version of `formatPhoneNumber`. -/
def formatPhoneNumberE (phone : Option String) : Except PyError (Option String) :=
  match phone with
  | none => Except.ok none
  | some p =>
    if p = "" then Except.ok none
    else
      let digits := stripNonDigits p.data
      if digits = [] then Except.ok none
      else (formatDigitsE digits).map (Option.map String.mk)

/-! ## ReferenceStore

The deduplicating reference store, modelled from the guarded set insertions
`if href not in all_links: all_links.add(href)` in both scrapers.  The store
is kept as an insertion-ordered list; membership is the dedup test. -/

def storeAdd (store : List String) (ref : String) : List String :=
  if store.contains ref then store else store ++ [ref]

def storeSize (store : List String) : Nat := store.length

/-! ## StrategyChain (`_get_name` / `_get_rating` in `optimized_scraper.py`)

A field extractor walks an ordered selector list; `view sel` is the text of
the first element the driver finds for `sel` (`none` when `find_element`
raises `NoSuchElementException`).  The per-category parse-and-validate
function returns `none` when the parsed value fails the validity test, in
which case the source `continue`s to the next selector. -/

def extractField (results : List (Option String))
    (parse : String → Option String) : Option String :=
  match results with
  | [] => none
  | none :: rest => extractField rest parse
  | some t :: rest =>
    match parse t with
    | some v => some v
    | none => extractField rest parse

/-- Python `str.strip()`: drop leading and trailing whitespace. -/
def pyStrip (s : String) : String :=
  String.mk
    (((s.data.dropWhile Char.isWhitespace).reverse.dropWhile
      Char.isWhitespace).reverse)

/-- `_get_name` validity: `name = element.text.strip(); if name and len(name) > 1`. -/
def parseName (t : String) : Option String :=
  let name := pyStrip t
  if name ≠ "" ∧ 1 < name.length then some name else none

/-- The selector chain of `_get_name`, in declaration order. -/
def nameSelectors : List String :=
  ["h1.DUwDvf", "h1[data-attrid=title]", "h1"]

/-- The regex `(\d+\.?\d*)` of `_get_rating`: the first maximal numeric run
starting at the first digit (digits, optional dot, digits). -/
def takeNumeric (l : List Char) : List Char :=
  let intPart := l.takeWhile Char.isDigit
  let rest := l.dropWhile Char.isDigit
  match rest with
  | '.' :: r2 => intPart ++ '.' :: r2.takeWhile Char.isDigit
  | _ => intPart

def firstNumericMatch (l : List Char) : Option String :=
  match l with
  | [] => none
  | c :: rest =>
    if c.isDigit then some (String.mk (takeNumeric (c :: rest)))
    else firstNumericMatch rest

/-- `_get_rating` validity: `re.search(r'(\d+\.?\d*)', text.strip())`; the
`float(...)` conversion is represented by the matched numeric literal. -/
def parseRating (t : String) : Option String :=
  firstNumericMatch (pyStrip t).data

/-- The selector chain of `_get_rating`, in declaration order. -/
def ratingSelectors : List String :=
  [".F7nice span[aria-hidden=true]", "span.ceNzKf"]

/-- `_get_name`: first valid strategy wins, sentinel on total failure. -/
def getName (view : String → Option String) : String :=
  (extractField (nameSelectors.map view) parseName).getD "Unknown Business"

/-- `_get_rating`: first valid strategy wins, `None` on total failure. -/
def getRating (view : String → Option String) : Option String :=
  extractField (ratingSelectors.map view) parseRating

/-- A strategy fails when its selector matches nothing, or the parsed value
fails the category validity predicate. -/
def stratFails (parse : String → Option String) : Option String → Prop
  | none => True
  | some t => parse t = none

/-! ## HarvestLoop, optimized variant
(`OptimizedGoogleMapsScraper._extract_links_optimized`)

The view driver is abstracted as two oracles: `primary n` is the href list
produced by the generic anchor selector at iteration `n` (already sliced to
the most recent elements), and `fallbacks n` are the four narrower selector
result lists tried when the primary pass adds nothing.  A `none` href models
`get_attribute('href')` returning `None`. -/

def isPlaceLink (href : String) : Bool :=
  decide (List.IsInfix "/maps/place/".data href.data)

/-- Loop state of `_extract_links_optimized`: the per-call `all_links` set,
the instance-level `seen_links` set, the `patience` counter and the
`scroll_count` counter. -/
structure OptState where
  allLinks : List String
  seenLinks : List String
  patience : Nat
  scrollCount : Nat
  deriving DecidableEq, Repr

def optMaxScrolls : Nat := 50

def optMaxPatience : Nat := 15

/-- One pass of `for element in elements: ...` — add each valid unseen href,
returning the new state, the number of additions, and whether the early
`return all_links` at `len(all_links) >= max_results` fired. -/
def optConsume (maxResults : Nat) :
    OptState → List (Option String) → OptState × Nat × Bool
  | st, [] => (st, 0, false)
  | st, none :: rest => optConsume maxResults st rest
  | st, some href :: rest =>
    if href != "" && isPlaceLink href && !(st.allLinks.contains href)
        && !(st.seenLinks.contains href) then
      let st1 := { st with allLinks := st.allLinks ++ [href],
                           seenLinks := st.seenLinks ++ [href] }
      if maxResults ≤ st1.allLinks.length then (st1, 1, true)
      else
        let out := optConsume maxResults st1 rest
        (out.1, out.2.1 + 1, out.2.2)
    else optConsume maxResults st rest

/-- The fallback pass over `selectors[1:]`, run only when the primary pass
added nothing. -/
def optConsumeMany (maxResults : Nat) :
    OptState → List (List (Option String)) → OptState × Nat × Bool
  | st, [] => (st, 0, false)
  | st, l :: ls =>
    let out := optConsume maxResults st l
    if out.2.2 then (out.1, out.2.1, true)
    else
      let out2 := optConsumeMany maxResults out.1 ls
      (out2.1, out.2.1 + out2.2.1, out2.2.2)

/-- How a harvest loop run ended: the store reached the target count, the
consecutive no-progress patience ceiling was hit, or the iteration ceiling
(`while scroll_count < max_scrolls`) was exhausted. -/
inductive HarvestExit where
  | target
  | patience
  | ceiling
  deriving DecidableEq, Repr

/-- The `while scroll_count < max_scrolls and len(all_links) < max_results`
loop.  The fuel argument is `max_scrolls - scroll_count`; it decreases in
lock-step with the `scroll_count += 1` of the source, so exhausted fuel is
exactly the iteration-ceiling exit. -/
def optLoop (primary : Nat → List (Option String))
    (fallbacks : Nat → List (List (Option String))) (maxResults : Nat) :
    Nat → OptState → List String × HarvestExit × OptState
  | 0, st => (st.allLinks, HarvestExit.ceiling, st)
  | Nat.succ fuel, st =>
    if maxResults ≤ st.allLinks.length then
      (st.allLinks, HarvestExit.target, st)
    else
      let out1 := optConsume maxResults st (primary st.scrollCount)
      if out1.2.2 then (out1.1.allLinks, HarvestExit.target, out1.1)
      else
        let out2 :=
          if out1.2.1 == 0 then
            optConsumeMany maxResults out1.1 (fallbacks st.scrollCount)
          else (out1.1, 0, false)
        if out2.2.2 then (out2.1.allLinks, HarvestExit.target, out2.1)
        else
          let newCount := out1.2.1 + out2.2.1
          if newCount == 0 then
            let st3 := { out2.1 with patience := out2.1.patience + 1 }
            if optMaxPatience ≤ st3.patience then
              (st3.allLinks, HarvestExit.patience, st3)
            else
              let st4 := { st3 with scrollCount := st3.scrollCount + 1 }
              if maxResults ≤ st4.allLinks.length then
                (st4.allLinks, HarvestExit.target, st4)
              else optLoop primary fallbacks maxResults fuel st4
          else
            let st3 := { out2.1 with patience := 0 }
            let st4 := { st3 with scrollCount := st3.scrollCount + 1 }
            if maxResults ≤ st4.allLinks.length then
              (st4.allLinks, HarvestExit.target, st4)
            else optLoop primary fallbacks maxResults fuel st4

/-- `_extract_links_optimized`, started on an empty `all_links` set and the
(instance-persistent) `seen_links` set `seen0`. -/
def optHarvest (primary : Nat → List (Option String))
    (fallbacks : Nat → List (List (Option String)))
    (seen0 : List String) (maxResults : Nat) :
    List String × HarvestExit × OptState :=
  optLoop primary fallbacks maxResults optMaxScrolls
    { allLinks := [], seenLinks := seen0, patience := 0, scrollCount := 0 }

/-- A stub driver element that can never contribute a new reference:
no href, an empty href, or a non-place href. -/
def optNotAddable : Option String → Bool
  | none => true
  | some href => href == "" || !isPlaceLink href

/-! ## HarvestLoop, enhanced variant
(`EnhancedGoogleMapsBusinessScraper.get_business_links`)

`oracle n` is the href list returned by the JavaScript extraction script at
iteration `n`.  Each iteration that reaches the no-progress bookkeeping
appends one `IterRec` to an observation trace recording the iteration's
delta, the no-progress counter after the update, and which recovery tier
fired (1 = `_alternative_scroll_strategy` at 3, 2 = `_page_refresh_strategy`
at 6, 3 = `_zoom_out_strategy` at 10). -/

structure IterRec where
  delta : Nat
  cntAfter : Nat
  firedTier : Option Nat
  deriving DecidableEq, Repr

structure EnhState where
  allLinks : List String
  cnt : Nat
  scrollAttempts : Nat
  trace : List IterRec
  deriving DecidableEq, Repr

def enhMaxScrolls (maxResults : Nat) : Nat := min 50 (max 20 maxResults)

def enhMaxPatience : Nat := 8

/-- `for href in links: if href and href not in all_links: ...` with the
inner `break` at `len(all_links) >= self.max_results`. -/
def enhConsume (maxResults : Nat) :
    List String → List String → List String × Nat
  | links, [] => (links, 0)
  | links, href :: rest =>
    if href != "" && !(links.contains href) then
      let links1 := links ++ [href]
      if maxResults ≤ links1.length then (links1, 1)
      else
        let out := enhConsume maxResults links1 rest
        (out.1, out.2 + 1)
    else enhConsume maxResults links rest

/-- The `if no_new_content_count == 3 / elif 6 / elif 10` escalation ladder. -/
def fireTier (cnt : Nat) : Option Nat :=
  if cnt == 3 then some 1
  else if cnt == 6 then some 2
  else if cnt == 10 then some 3
  else none

/-- The `while scroll_attempts < max_scrolls and len(all_links) <
max_results` loop of `get_business_links`, with fuel
`max_scrolls - scroll_attempts` as in `optLoop`.  The returned link list is
`list(all_links)[:max_results]`. -/
def enhLoop (oracle : Nat → List String) (maxResults : Nat) :
    Nat → EnhState → List String × HarvestExit × EnhState
  | 0, st => (st.allLinks.take maxResults, HarvestExit.ceiling, st)
  | Nat.succ fuel, st =>
    if maxResults ≤ st.allLinks.length then
      (st.allLinks.take maxResults, HarvestExit.target, st)
    else
      let out := enhConsume maxResults st.allLinks (oracle st.scrollAttempts)
      if maxResults ≤ out.1.length then
        (out.1.take maxResults, HarvestExit.target, { st with allLinks := out.1 })
      else if out.2 == 0 then
        let cnt1 := st.cnt + 1
        let st1 : EnhState :=
          { st with allLinks := out.1, cnt := cnt1,
                    trace := st.trace ++ [⟨out.2, cnt1, fireTier cnt1⟩] }
        if enhMaxPatience ≤ cnt1 then
          (st1.allLinks.take maxResults, HarvestExit.patience, st1)
        else
          enhLoop oracle maxResults fuel
            { st1 with scrollAttempts := st1.scrollAttempts + 1 }
      else
        let st1 : EnhState :=
          { st with allLinks := out.1, cnt := 0,
                    trace := st.trace ++ [⟨out.2, 0, none⟩] }
        enhLoop oracle maxResults fuel
          { st1 with scrollAttempts := st1.scrollAttempts + 1 }

/-- `get_business_links` from a fresh state. -/
def enhHarvest (oracle : Nat → List String) (maxResults : Nat) :
    List String × HarvestExit × EnhState :=
  enhLoop oracle maxResults (enhMaxScrolls maxResults)
    { allLinks := [], cnt := 0, scrollAttempts := 0, trace := [] }

/-- The escalation-trace consistency relation: starting from counter value
`c`, each record either extends a no-progress run (counter incremented,
tier fired exactly by the 3/6/10 ladder) or records progress (counter reset
to 0, nothing fired). -/
def traceChain (c : Nat) : List IterRec → Prop
  | [] => True
  | r :: rs =>
    ((r.delta = 0 ∧ r.cntAfter = c + 1 ∧ r.firedTier = fireTier (c + 1)) ∨
      (r.delta ≠ 0 ∧ r.cntAfter = 0 ∧ r.firedTier = none)) ∧
    traceChain r.cntAfter rs

/-- The no-progress counter value after a trace prefix, seeded with `c`. -/
def endCnt (c : Nat) : List IterRec → Nat
  | [] => c
  | r :: rs => endCnt r.cntAfter rs

/-! ## HarvestSession (`EnhancedGoogleMapsBusinessScraper.run_extraction`)

Per-item detail extraction is abstracted as an `ExtractOutcome`; the claims
quantify over arbitrary extraction behaviour.  `extract_business_data`
catches every internal exception and returns `None`, so `raises` and
`noData` both surface as `none` at the session level.  Crucially,
`__init__` (lines 28-38 of the source) never initializes
`self.contacts_found`, which `run_extraction` both increments and prints:
the attribute is modelled by an `Option Nat` that starts out `none`. -/

structure SessRecord where
  name : String
  mobile : Option String
  email : Option String
  deriving DecidableEq, Repr

inductive ExtractOutcome where
  | raises
  | noData
  | record (r : SessRecord)
  deriving DecidableEq, Repr

/-- `extract_business_data` as seen by the session loop. -/
def extractBusinessData (o : ExtractOutcome) : Option SessRecord :=
  match o with
  | ExtractOutcome.raises => none
  | ExtractOutcome.noData => none
  | ExtractOutcome.record r => some r

structure SessState where
  results : List SessRecord
  successful : Nat
  failed : Nat
  contactsFound : Option Nat
  deriving DecidableEq, Repr

/-- Session state at the start of `run_extraction`: no results, zero
counters, and the `contacts_found` attribute never created. -/
def sessInit : SessState :=
  { results := [], successful := 0, failed := 0, contactsFound := none }

/-- The body of the per-item `try:` block.  Reading the missing
`contacts_found` attribute raises `AttributeError`; the error carries the
state at the raise point because the earlier `results.append` and
`successful += 1` side effects have already happened. -/
def itemBody (st : SessState) (o : ExtractOutcome) :
    Except (PyError × SessState) SessState :=
  match extractBusinessData o with
  | some r =>
    if r.name != "Unknown Business" then
      let st1 := { st with results := st.results ++ [r],
                           successful := st.successful + 1 }
      if r.email.isSome || r.mobile.isSome then
        match st1.contactsFound with
        | none => Except.error (PyError.attributeError, st1)
        | some n => Except.ok { st1 with contactsFound := some (n + 1) }
      else Except.ok st1
    else Except.ok { st with failed := st.failed + 1 }
  | none => Except.ok { st with failed := st.failed + 1 }

/-- The per-item `except Exception: failed += 1` handler wrapped around
`itemBody`: no exception escapes one iteration of the loop. -/
def itemStep (st : SessState) (o : ExtractOutcome) : SessState :=
  match itemBody st o with
  | Except.ok st1 => st1
  | Except.error e => { e.2 with failed := e.2.failed + 1 }

/-- The `for i, link in enumerate(business_links, 1)` loop. -/
def sessLoop (outcomes : List ExtractOutcome) : SessState :=
  outcomes.foldl itemStep sessInit

/-- The part of `run_extraction` inside the outer `try:`: run the loop, then
print the final summary, whose `self.contacts_found` read raises
`AttributeError` when the attribute was never created. -/
def runExtractionBody (outcomes : List ExtractOutcome) :
    Except PyError (List SessRecord) :=
  let st := sessLoop outcomes
  match st.contactsFound with
  | none => Except.error PyError.attributeError
  | some _ => Except.ok st.results

/-- `run_extraction` as the caller sees it: the outer
`except Exception: return []` catches whatever escapes the body. -/
def runExtraction (outcomes : List ExtractOutcome) :
    Except PyError (List SessRecord) :=
  match runExtractionBody outcomes with
  | Except.ok l => Except.ok l
  | Except.error _ => Except.ok []

/-- An item the session counts as failed on the spot: extraction returned
nothing, or the name carries the sentinel. -/
def itemFails (o : ExtractOutcome) : Bool :=
  match extractBusinessData o with
  | none => true
  | some r => r.name == "Unknown Business"

/-- A useful record with a contact: the item whose `contacts_found`
increment hits the missing attribute. -/
def usefulWithContact (o : ExtractOutcome) : Bool :=
  match extractBusinessData o with
  | none => false
  | some r => r.name != "Unknown Business" && (r.email.isSome || r.mobile.isSome)

/-- The useful record an item contributes to `results`, if any. -/
def usefulRecordOf (o : ExtractOutcome) : Option SessRecord :=
  match extractBusinessData o with
  | none => none
  | some r => if r.name != "Unknown Business" then some r else none

/-- The discovery stub of the end-to-end scenario: references R1..R5 become
visible across three discovery iterations (2, 2, 1 new). -/
def c9Oracle : Nat → List String := fun n =>
  if n == 0 then ["R1", "R2"]
  else if n == 1 then ["R1", "R2", "R3", "R4"]
  else ["R1", "R2", "R3", "R4", "R5"]

/-- The detail stub of the end-to-end scenario: a valid name and phone for
R1, R3, R5; an absent (sentinel) name for R2 and R4. -/
def c9Outcomes : List ExtractOutcome :=
  [ExtractOutcome.record ⟨"Business One", some "+919876543210", none⟩,
   ExtractOutcome.record ⟨"Unknown Business", none, none⟩,
   ExtractOutcome.record ⟨"Business Three", some "+919876543211", none⟩,
   ExtractOutcome.record ⟨"Unknown Business", none, none⟩,
   ExtractOutcome.record ⟨"Business Five", some "+919876543212", none⟩]

/-! ## Scroll fallback (`OptimizedGoogleMapsScraper._scroll_optimized`) -/

/-- The environment of one `_scroll_optimized` call: whether the
`[role="main"]` panel is found, whether `window.scrollBy` succeeds, whether
`random.random() > 0.8`, and whether the `body` element is found. -/
structure ScrollEnv where
  panelFound : Bool
  windowScrollOk : Bool
  randAbove : Bool
  bodyFound : Bool
  deriving DecidableEq, Repr

inductive ScrollAction where
  | panelScroll
  | windowScroll
  | keyPageDown
  deriving DecidableEq, Repr

/-- `_scroll_optimized`: the actions successfully performed, and whether an
exception escapes the method (the outer `except` only prints). -/
def scrollOptimized (env : ScrollEnv) : List ScrollAction × Bool :=
  if env.panelFound then ([ScrollAction.panelScroll], false)
  else if env.windowScrollOk then
    if env.randAbove then
      if env.bodyFound then
        ([ScrollAction.windowScroll, ScrollAction.keyPageDown], false)
      else ([ScrollAction.windowScroll], false)
    else ([ScrollAction.windowScroll], false)
  else ([], false)

/-! ### Lemmas about the phone normalizer -/

lemma mem_stripNonDigits {l : List Char} {c : Char} (h : c ∈ stripNonDigits l) :
    c.isDigit = true :=
  (List.mem_filter.mp h).2

lemma stripNonDigits_of_all_digits {l : List Char}
    (h : ∀ c ∈ l, c.isDigit = true) : stripNonDigits l = l :=
  List.filter_eq_self.mpr h

lemma stripNonDigits_idem (l : List Char) :
    stripNonDigits (stripNonDigits l) = stripNonDigits l :=
  stripNonDigits_of_all_digits (fun _ hc => mem_stripNonDigits hc)

lemma stripNonDigits_cons_plus (l : List Char) :
    stripNonDigits ('+' :: l) = stripNonDigits l := by
  simp [stripNonDigits, List.filter_cons]

lemma hasCountryCode_cons_one (d : List Char) :
    hasCountryCode ('1' :: d) = true := by
  unfold hasCountryCode
  rw [List.any_eq_true]
  refine ⟨"1", ?_, ?_⟩
  · show "1" ∈ countryCodes
    rw [countryCodes]
    exact List.mem_cons_self _ _
  · simp [List.isPrefixOf]

lemma leadingCheck_some {d : List Char} {i : Nat} (h : leadingCheck d i = true) :
    ∃ c, d.get? i = some c ∧ leadingDigits.contains c = true := by
  unfold leadingCheck at h
  cases h0 : d.get? i with
  | none => rw [h0] at h; simp at h
  | some c => rw [h0] at h; exact ⟨c, rfl, h⟩

lemma formatDigits_len10_lead {d : List Char} (h10 : d.length = 10)
    (hl : leadingCheck d 0 = true) :
    formatDigits d = some ('+' :: '9' :: '1' :: d) := by
  simp [formatDigits, h10, hl]

lemma formatDigits_len12_91 {d : List Char} (h12 : d.length = 12)
    (hp : List.isPrefixOf ['9', '1'] d = true) (hl : leadingCheck d 2 = true) :
    formatDigits d = some ('+' :: d) := by
  simp [formatDigits, h12, hp, hl]

lemma formatDigits_fallback {d : List Char} (h10 : d.length = 10)
    (hl : leadingCheck d 0 = false) (hcc : hasCountryCode d = false) :
    formatDigits d = some ('+' :: '1' :: d) := by
  simp [formatDigits, h10, hl, hcc]

lemma formatDigits_short {d : List Char} (h : d.length < 10) :
    formatDigits d = none := by
  have h1 : (d.length == 10) = false := by
    simp only [beq_eq_false_iff_ne]; omega
  have h2 : (d.length == 12) = false := by
    simp only [beq_eq_false_iff_ne]; omega
  have h3 : ¬ (10 ≤ d.length) := by omega
  simp [formatDigits, h1, h2, h3]

lemma formatDigits_cc {d : List Char}
    (hc1 : (d.length == 10 && leadingCheck d 0) = false)
    (hc2 : (d.length == 12 && List.isPrefixOf ['9', '1'] d
      && leadingCheck d 2) = false)
    (hlen : 10 ≤ d.length) (hcc : hasCountryCode d = true) :
    formatDigits d = some ('+' :: d) := by
  simp [formatDigits, hc1, hc2, hlen, hcc]


lemma leadingCheck_cons91 {d : List Char} (h : leadingCheck d 0 = true) :
    leadingCheck ('9' :: '1' :: d) 2 = true := by
  obtain ⟨c, hc, hcont⟩ := leadingCheck_some h
  unfold leadingCheck
  rw [show ('9' :: '1' :: d).get? 2 = d.get? 0 from rfl, hc]
  exact hcont

/-- Every `some` result of `formatDigits` on an all-digit input is a fixed
point: it has the shape `'+' :: t` with `t` all digits, and running the
branch chain on `t` reproduces the same result. -/
lemma formatDigits_fix {d r : List Char} (hd : ∀ c ∈ d, c.isDigit = true)
    (h : formatDigits d = some r) :
    ∃ t, r = '+' :: t ∧ (∀ c ∈ t, c.isDigit = true) ∧
      formatDigits t = some ('+' :: t) := by
  unfold formatDigits at h
  by_cases hc1 : (d.length == 10 && leadingCheck d 0) = true
  · rw [if_pos hc1] at h
    rw [Bool.and_eq_true] at hc1
    obtain ⟨h10b, hl⟩ := hc1
    injection h with h
    refine ⟨'9' :: '1' :: d, h.symm, ?_, ?_⟩
    · intro c hcm
      rcases List.mem_cons.mp hcm with rfl | hcm
      · decide
      · rcases List.mem_cons.mp hcm with rfl | hcm
        · decide
        · exact hd c hcm
    · have h12 : ('9' :: '1' :: d).length = 12 := by
        simp [beq_iff_eq.mp h10b]
      have hp : List.isPrefixOf ['9', '1'] ('9' :: '1' :: d) = true := by
        simp [List.isPrefixOf]
      exact formatDigits_len12_91 h12 hp (leadingCheck_cons91 hl)
  · rw [if_neg hc1] at h
    by_cases hc2 : (d.length == 12 && List.isPrefixOf ['9', '1'] d
        && leadingCheck d 2) = true
    · rw [if_pos hc2] at h
      rw [Bool.and_eq_true, Bool.and_eq_true] at hc2
      obtain ⟨⟨h12b, hp⟩, hl2⟩ := hc2
      injection h with h
      exact ⟨d, h.symm, hd,
        formatDigits_len12_91 (beq_iff_eq.mp h12b) hp hl2⟩
    · rw [if_neg hc2] at h
      by_cases hlen : 10 ≤ d.length
      · rw [if_pos hlen] at h
        by_cases hcc : hasCountryCode d = true
        · rw [if_pos hcc] at h
          injection h with h
          exact ⟨d, h.symm, hd,
            formatDigits_cc (Bool.not_eq_true _ ▸ hc1)
              (Bool.not_eq_true _ ▸ hc2) hlen hcc⟩
        · rw [if_neg hcc] at h
          by_cases h10 : (d.length == 10) = true
          · rw [if_pos h10] at h
            injection h with h
            refine ⟨'1' :: d, h.symm, ?_, ?_⟩
            · intro c hcm
              rcases List.mem_cons.mp hcm with rfl | hcm
              · decide
              · exact hd c hcm
            · simp [formatDigits, beq_iff_eq.mp h10, hasCountryCode_cons_one]
          · rw [if_neg h10] at h
            cases h
      · rw [if_neg hlen] at h
        cases h

lemma formatPhoneNumber_some_eq (p : String) (hp : p ≠ "")
    (hd : stripNonDigits p.data ≠ []) :
    formatPhoneNumber (some p)
      = (formatDigits (stripNonDigits p.data)).map String.mk := by
  simp [formatPhoneNumber, hp, hd]

/-- Idempotence of the phone normalizer. -/
lemma formatPhoneNumber_idem (x : Option String) :
    formatPhoneNumber (formatPhoneNumber x) = formatPhoneNumber x := by
  cases x with
  | none => rfl
  | some p =>
    by_cases hp : p = ""
    · simp [formatPhoneNumber, hp]
    · by_cases hd0 : stripNonDigits p.data = []
      · simp [formatPhoneNumber, hp, hd0]
      · have hres := formatPhoneNumber_some_eq p hp hd0
        cases hfd : formatDigits (stripNonDigits p.data) with
        | none => rw [hres, hfd]; rfl
        | some r =>
          rw [hres, hfd]
          obtain ⟨t, rfl, ht, hfix⟩ :=
            formatDigits_fix (fun _ hc => mem_stripNonDigits hc) hfd
          have hne : String.mk ('+' :: t) ≠ "" := by
            intro hcontra
            have := congrArg String.data hcontra
            simp at this
          have hstrip : stripNonDigits (String.mk ('+' :: t)).data = t := by
            rw [show (String.mk ('+' :: t)).data = '+' :: t from rfl,
              stripNonDigits_cons_plus, stripNonDigits_of_all_digits ht]
          have htne : t ≠ [] := by
            intro h0
            rw [h0, formatDigits_short (by simp)] at hfix
            cases hfix
          show formatPhoneNumber (some (String.mk ('+' :: t)))
            = some (String.mk ('+' :: t))
          rw [formatPhoneNumber_some_eq _ hne (by rw [hstrip]; exact htne),
            hstrip, hfix]
          rfl

/-- The exception-transparent branch chain never raises and agrees with the
pure embedding. -/
lemma formatDigitsE_ok (d : List Char) :
    formatDigitsE d = Except.ok (formatDigits d) := by
  by_cases h10 : d.length = 10
  · cases d with
    | nil => simp at h10
    | cons a l =>
      by_cases hc : leadingDigits.contains a = true
      · simp only [formatDigitsE, formatDigits, idxE, leadingCheck, h10]
        split_ifs <;> simp_all
      · simp only [formatDigitsE, formatDigits, idxE, leadingCheck, h10]
        split_ifs <;> simp_all
  · have h10b : (d.length == 10) = false := by simp [h10]
    by_cases h12 : d.length = 12 ∧ List.isPrefixOf ['9', '1'] d = true
    · obtain ⟨h12l, hp⟩ := h12
      rcases d with _ | ⟨a, _ | ⟨b, _ | ⟨c, rest⟩⟩⟩ <;> try simp at h12l
      by_cases hcont : leadingDigits.contains c = true
      · simp [formatDigitsE, formatDigits, idxE, leadingCheck, h10b, h12l,
          hp, hcont]
        split_ifs <;> rfl
      · simp [formatDigitsE, formatDigits, idxE, leadingCheck, h10b, h12l,
          hp, hcont]
        split_ifs <;> rfl
    · have hf : (d.length == 12 && List.isPrefixOf ['9', '1'] d) = false := by
        have hne : ¬ ((d.length == 12 && List.isPrefixOf ['9', '1'] d) = true) := by
          rw [Bool.and_eq_true]
          rintro ⟨hx, hy⟩
          exact h12 ⟨beq_iff_eq.mp hx, hy⟩
        exact Bool.not_eq_true _ ▸ hne
      simp only [formatDigitsE, formatDigits, h10b, hf, Bool.false_and,
        Bool.and_false, if_false, Bool.false_eq_true]
      split_ifs <;> rfl

/-- `formatPhoneNumberE` never raises: totality of the phone normalizer. -/
lemma formatPhoneNumberE_ok (x : Option String) :
    formatPhoneNumberE x = Except.ok (formatPhoneNumber x) := by
  cases x with
  | none => rfl
  | some p =>
    by_cases hp : p = ""
    · simp [formatPhoneNumberE, formatPhoneNumber, hp]
    · by_cases hd : stripNonDigits p.data = []
      · simp [formatPhoneNumberE, formatPhoneNumber, hp, hd]
      · simp [formatPhoneNumberE, formatPhoneNumber, hp, hd,
          formatDigitsE_ok, Except.map]

/-! ### Lemmas about the ReferenceStore -/

lemma storeAdd_mem (store : List String) (ref : String) :
    (storeAdd store ref).contains ref = true := by
  unfold storeAdd
  by_cases h : store.contains ref = true
  · rw [if_pos h]
    exact h
  · rw [if_neg h]
    simp

lemma storeAdd_absorb (store : List String) (ref : String) :
    storeAdd (storeAdd store ref) ref = storeAdd store ref := by
  have hmem := storeAdd_mem store ref
  generalize hs : storeAdd store ref = s at hmem ⊢
  unfold storeAdd
  rw [if_pos hmem]

lemma storeAdd_size_new {store : List String} {ref : String}
    (h : store.contains ref = false) :
    storeSize (storeAdd store ref) = storeSize store + 1 := by
  unfold storeAdd storeSize
  rw [if_neg (by simp only [h]; simp)]
  simp

/-! ### Lemmas about the StrategyChain -/

lemma extractField_first (parse : String → Option String) :
    ∀ (results : List (Option String)) (i : Nat) (t v : String),
      results.get? i = some (some t) → parse t = some v →
      (∀ j, j < i → ∀ x, results.get? j = some x → stratFails parse x) →
      extractField results parse = some v := by
  intro results
  induction results with
  | nil => intro i t v h _ _; simp at h
  | cons x tl ih =>
    intro i t v hget hparse hfail
    cases i with
    | zero =>
      have hx : x = some t := by simpa using hget
      subst hx
      unfold extractField
      rw [hparse]
    | succ i =>
      have hx := hfail 0 (Nat.succ_pos _) x rfl
      have hget' : tl.get? i = some (some t) := by simpa using hget
      have hfail' : ∀ j, j < i → ∀ y, tl.get? j = some y → stratFails parse y := by
        intro j hj y hy
        exact hfail (j + 1) (Nat.succ_lt_succ hj) y (by simpa using hy)
      cases x with
      | none =>
        unfold extractField
        exact ih i t v hget' hparse hfail'
      | some t0 =>
        have ht0 : parse t0 = none := hx
        unfold extractField
        rw [ht0]
        exact ih i t v hget' hparse hfail'

lemma extractField_none (parse : String → Option String) :
    ∀ results : List (Option String),
      (∀ x ∈ results, stratFails parse x) →
      extractField results parse = none := by
  intro results
  induction results with
  | nil => intro _; rfl
  | cons x tl ih =>
    intro hall
    have hx := hall x (List.mem_cons_self _ _)
    cases x with
    | none =>
      unfold extractField
      exact ih (fun y hy => hall y (List.mem_cons_of_mem _ hy))
    | some t0 =>
      have ht0 : parse t0 = none := hx
      unfold extractField
      rw [ht0]
      exact ih (fun y hy => hall y (List.mem_cons_of_mem _ hy))

lemma getName_absent (view : String → Option String)
    (h : ∀ s ∈ nameSelectors, stratFails parseName (view s)) :
    getName view = "Unknown Business" := by
  unfold getName
  rw [extractField_none]
  · rfl
  · intro x hx
    obtain ⟨s, hs, rfl⟩ := List.mem_map.mp hx
    exact h s hs

lemma getRating_absent (view : String → Option String)
    (h : ∀ s ∈ ratingSelectors, stratFails parseRating (view s)) :
    getRating view = none := by
  unfold getRating
  rw [extractField_none]
  intro x hx
  obtain ⟨s, hs, rfl⟩ := List.mem_map.mp hx
  exact h s hs

/-! ### Lemmas about the optimized harvest loop -/

lemma optConsume_stub (maxResults : Nat) :
    ∀ (l : List (Option String)) (st : OptState),
      l.all optNotAddable = true →
      optConsume maxResults st l = (st, 0, false) := by
  intro l
  induction l with
  | nil => intro st _; rfl
  | cons x tl ih =>
    intro st hall
    rw [List.all_cons, Bool.and_eq_true] at hall
    obtain ⟨hx, htl⟩ := hall
    cases x with
    | none =>
      unfold optConsume
      exact ih st htl
    | some href =>
      unfold optNotAddable at hx
      unfold optConsume
      rcases (Bool.or_eq_true _ _) ▸ hx with h1 | h2
      · have hb : (href != "") = false := by simp [bne, h1]
        rw [if_neg (by simp [hb])]
        exact ih st htl
      · have hpl : isPlaceLink href = false := by simpa using h2
        rw [if_neg (by simp [hpl])]
        exact ih st htl

lemma optConsumeMany_stub (maxResults : Nat) :
    ∀ (ls : List (List (Option String))) (st : OptState),
      (∀ l ∈ ls, l.all optNotAddable = true) →
      optConsumeMany maxResults st ls = (st, 0, false) := by
  intro ls
  induction ls with
  | nil => intro st _; rfl
  | cons l tl ih =>
    intro st hall
    have h1 := optConsume_stub maxResults l st (hall l (List.mem_cons_self _ _))
    have h2 := ih st (fun m hm => hall m (List.mem_cons_of_mem _ hm))
    simp [optConsumeMany, h1, h2]

lemma optLoop_stub (primary : Nat → List (Option String))
    (fallbacks : Nat → List (List (Option String))) (maxResults : Nat)
    (hm : 0 < maxResults)
    (hp : ∀ n, (primary n).all optNotAddable = true)
    (hf : ∀ n, ∀ l ∈ fallbacks n, l.all optNotAddable = true) :
    ∀ (fuel : Nat) (st : OptState), st.allLinks = [] →
      st.patience < optMaxPatience → optMaxPatience - st.patience ≤ fuel →
      optLoop primary fallbacks maxResults fuel st =
        ([], HarvestExit.patience,
          { st with patience := optMaxPatience,
                    scrollCount :=
                      st.scrollCount + (optMaxPatience - 1 - st.patience) }) := by
  intro fuel
  induction fuel with
  | zero =>
    intro st _ hlt hle
    simp only [optMaxPatience] at hlt hle
    omega
  | succ fuel ih =>
    rintro ⟨links, seen, p, sc⟩ h0 hlt hle
    simp only at h0
    subst h0
    simp only [optMaxPatience] at hlt hle ⊢
    have hm' : ¬ (maxResults = 0) := by omega
    have hcp : ∀ st' : OptState,
        optConsume maxResults st' (primary sc) = (st', 0, false) :=
      fun st' => optConsume_stub maxResults _ st' (hp sc)
    have hcm : ∀ st' : OptState,
        optConsumeMany maxResults st' (fallbacks sc) = (st', 0, false) :=
      fun st' => optConsumeMany_stub maxResults _ st' (hf sc)
    by_cases h15 : 15 ≤ p + 1
    · have h1 : p + 1 = 15 := by omega
      have h2 : 14 - p = 0 := by omega
      simp [optLoop, optMaxPatience, hcp, hcm, hm', h15, h1, h2]
    · have hrec := ih ⟨[], seen, p + 1, sc + 1⟩ rfl
        (by simp only [optMaxPatience]; omega)
        (by simp only [optMaxPatience]; omega)
      simp only [optMaxPatience] at hrec
      simp [optLoop, optMaxPatience, hcp, hcm, hm', h15, hrec]
      omega

lemma optConsume_bound (maxResults : Nat) :
    ∀ (l : List (Option String)) (st : OptState),
      st.allLinks.length < maxResults →
      ((optConsume maxResults st l).1.allLinks.length ≤ maxResults) ∧
      ((optConsume maxResults st l).2.2 = true →
        (optConsume maxResults st l).1.allLinks.length = maxResults) ∧
      ((optConsume maxResults st l).2.2 = false →
        (optConsume maxResults st l).1.allLinks.length < maxResults) := by
  intro l
  induction l with
  | nil =>
    intro st hlt
    exact ⟨Nat.le_of_lt hlt, fun h => Bool.noConfusion h, fun _ => hlt⟩
  | cons x tl ih =>
    intro st hlt
    cases x with
    | none =>
      simpa [optConsume] using ih st hlt
    | some href =>
      rcases Bool.eq_false_or_eq_true (href != "" && isPlaceLink href
          && !(st.allLinks.contains href) && !(st.seenLinks.contains href))
        with hcond | hcond
      swap
      · simp only [optConsume, hcond]
        rw [if_neg (by simp)]
        exact ih st hlt
      · simp only [optConsume, hcond]
        rw [if_pos trivial]
        by_cases htar : maxResults ≤ (st.allLinks ++ [href]).length
        · rw [if_pos htar]
          have hlen : (st.allLinks ++ [href]).length = maxResults := by
            simp only [List.length_append, List.length_singleton] at htar ⊢
            omega
          refine ⟨?_, fun _ => ?_, fun hfalse => ?_⟩
          · dsimp only
            omega
          · dsimp only
            exact hlen
          · simp at hfalse
        · rw [if_neg htar]
          have h2 := ih { st with allLinks := st.allLinks ++ [href],
                                  seenLinks := st.seenLinks ++ [href] }
            (by
              simp only [List.length_append, List.length_singleton] at htar ⊢
              omega)
          dsimp only
          exact h2

lemma optConsumeMany_bound (maxResults : Nat) :
    ∀ (ls : List (List (Option String))) (st : OptState),
      st.allLinks.length < maxResults →
      ((optConsumeMany maxResults st ls).1.allLinks.length ≤ maxResults) ∧
      ((optConsumeMany maxResults st ls).2.2 = true →
        (optConsumeMany maxResults st ls).1.allLinks.length = maxResults) ∧
      ((optConsumeMany maxResults st ls).2.2 = false →
        (optConsumeMany maxResults st ls).1.allLinks.length < maxResults) := by
  intro ls
  induction ls with
  | nil =>
    intro st hlt
    exact ⟨Nat.le_of_lt hlt, fun h => Bool.noConfusion h, fun _ => hlt⟩
  | cons l tl ih =>
    intro st hlt
    obtain ⟨c1, c2, c3⟩ := optConsume_bound maxResults l st hlt
    rcases Bool.eq_false_or_eq_true (optConsume maxResults st l).2.2 with he | he
    · simp only [optConsumeMany, he]
      rw [if_pos trivial]
      dsimp only
      exact ⟨le_of_eq (c2 he), fun _ => c2 he, fun hfalse => Bool.noConfusion hfalse⟩
    · have hlt1 := c3 he
      obtain ⟨d1, d2, d3⟩ := ih (optConsume maxResults st l).1 hlt1
      simp only [optConsumeMany, he]
      rw [if_neg (by simp)]
      dsimp only
      exact ⟨d1, d2, d3⟩

lemma optLoop_bound (primary : Nat → List (Option String))
    (fallbacks : Nat → List (List (Option String))) (maxResults : Nat) :
    ∀ (fuel : Nat) (st : OptState), st.allLinks.length ≤ maxResults →
      ((optLoop primary fallbacks maxResults fuel st).1.length ≤ maxResults) ∧
      ((optLoop primary fallbacks maxResults fuel st).2.1 = HarvestExit.target →
        (optLoop primary fallbacks maxResults fuel st).1.length = maxResults) ∧
      ((optLoop primary fallbacks maxResults fuel st).2.2.allLinks.length
        ≤ maxResults) := by
  intro fuel
  induction fuel with
  | zero =>
    intro st hle
    exact ⟨hle, fun htar => by simp [optLoop] at htar, hle⟩
  | succ fuel ih =>
    intro st hle
    by_cases hhead : maxResults ≤ st.allLinks.length
    · have heq : st.allLinks.length = maxResults := Nat.le_antisymm hle hhead
      simp only [optLoop]
      rw [if_pos hhead]
      exact ⟨le_of_eq heq, fun _ => heq, le_of_eq heq⟩
    · have hlt : st.allLinks.length < maxResults := by omega
      obtain ⟨c1, c2, c3⟩ :=
        optConsume_bound maxResults (primary st.scrollCount) st hlt
      simp only [optLoop]
      rw [if_neg hhead]
      rcases Bool.eq_false_or_eq_true
          (optConsume maxResults st (primary st.scrollCount)).2.2 with he1 | he1
      · simp only [he1]
        rw [if_pos trivial]
        dsimp only
        exact ⟨le_of_eq (c2 he1), fun _ => c2 he1, le_of_eq (c2 he1)⟩
      · have hlt1 := c3 he1
        simp only [he1]
        rw [if_neg (by simp)]
        rcases Bool.eq_false_or_eq_true
            ((optConsume maxResults st (primary st.scrollCount)).2.1 == 0)
          with hn | hn
        · obtain ⟨d1, d2, d3⟩ := optConsumeMany_bound maxResults
            (fallbacks st.scrollCount)
            (optConsume maxResults st (primary st.scrollCount)).1 hlt1
          simp only [hn]
          rw [if_pos trivial]
          rcases Bool.eq_false_or_eq_true
              (optConsumeMany maxResults
                (optConsume maxResults st (primary st.scrollCount)).1
                (fallbacks st.scrollCount)).2.2 with he2 | he2
          · simp only [he2]
            rw [if_pos trivial]
            dsimp only
            exact ⟨le_of_eq (d2 he2), fun _ => d2 he2, le_of_eq (d2 he2)⟩
          · have hlt2 := d3 he2
            simp only [he2]
            rw [if_neg (by simp)]
            rcases Bool.eq_false_or_eq_true
                ((optConsume maxResults st (primary st.scrollCount)).2.1 +
                  (optConsumeMany maxResults
                    (optConsume maxResults st (primary st.scrollCount)).1
                    (fallbacks st.scrollCount)).2.1 == 0) with hz | hz
            · simp only [hz]
              rw [if_pos trivial]
              by_cases hpat : optMaxPatience ≤
                  (optConsumeMany maxResults
                    (optConsume maxResults st (primary st.scrollCount)).1
                    (fallbacks st.scrollCount)).1.patience + 1
              · rw [if_pos hpat]
                dsimp only
                exact ⟨le_of_lt hlt2, fun htar => by simp at htar, le_of_lt hlt2⟩
              · rw [if_neg hpat]
                rw [if_neg (Nat.not_le.mpr hlt2)]
                exact ih _ (le_of_lt hlt2)
            · simp only [hz]
              rw [if_neg (by simp)]
              rw [if_neg (Nat.not_le.mpr hlt2)]
              exact ih _ (le_of_lt hlt2)
        · simp only [hn, Bool.false_eq_true, if_false]
          simp only [Nat.add_zero, hn, Bool.false_eq_true, if_false]
          rw [if_neg (Nat.not_le.mpr hlt1)]
          exact ih _ (le_of_lt hlt1)

/-! ### Lemmas about the enhanced harvest loop -/

lemma enhConsume_stub (maxResults : Nat) :
    ∀ (l : List String) (links : List String),
      l.all (fun href => href == "") = true →
      enhConsume maxResults links l = (links, 0) := by
  intro l
  induction l with
  | nil => intro links _; rfl
  | cons href tl ih =>
    intro links hall
    rw [List.all_cons, Bool.and_eq_true] at hall
    obtain ⟨hh, htl⟩ := hall
    have hhe : href = "" := by simpa using hh
    subst hhe
    simp only [enhConsume]
    rw [if_neg (by simp)]
    exact ih links htl

lemma enhLoop_stub (oracle : Nat → List String) (maxResults : Nat)
    (hm : 0 < maxResults)
    (ho : ∀ n, (oracle n).all (fun href => href == "") = true) :
    ∀ (fuel : Nat) (st : EnhState), st.allLinks = [] →
      st.cnt < enhMaxPatience → enhMaxPatience - st.cnt ≤ fuel →
      ∃ final : EnhState,
        enhLoop oracle maxResults fuel st = ([], HarvestExit.patience, final) ∧
        final.cnt = enhMaxPatience ∧
        final.scrollAttempts
          = st.scrollAttempts + (enhMaxPatience - 1 - st.cnt) ∧
        final.allLinks = [] := by
  intro fuel
  induction fuel with
  | zero =>
    intro st _ hlt hle
    simp only [enhMaxPatience] at hlt hle
    omega
  | succ fuel ih =>
    rintro ⟨links, cnt, sa, tr⟩ h0 hlt hle
    simp only at h0
    subst h0
    simp only [enhMaxPatience] at hlt hle ⊢
    have hm' : ¬ (maxResults = 0) := by omega
    have hc : ∀ links' : List String,
        enhConsume maxResults links' (oracle sa) = (links', 0) :=
      fun links' => enhConsume_stub maxResults _ links' (ho sa)
    by_cases h8 : 8 ≤ cnt + 1
    · refine ⟨⟨[], cnt + 1, sa, tr ++ [⟨0, cnt + 1, fireTier (cnt + 1)⟩]⟩,
        ?_, by simp only [enhMaxPatience]; omega,
        by show sa = sa + (8 - 1 - cnt); omega, rfl⟩
      simp [enhLoop, enhMaxPatience, hc, hm', h8]
    · obtain ⟨final, heq, hfc, hfs, hfl⟩ :=
        ih ⟨[], cnt + 1, sa + 1, tr ++ [⟨0, cnt + 1, fireTier (cnt + 1)⟩]⟩ rfl
          (by simp only [enhMaxPatience]; omega)
          (by simp only [enhMaxPatience]; omega)
      have hfs' : final.scrollAttempts
          = (sa + 1) + (enhMaxPatience - 1 - (cnt + 1)) := hfs
      simp only [enhMaxPatience] at hfs' hfc
      refine ⟨final, ?_, hfc, by omega, hfl⟩
      simp [enhLoop, enhMaxPatience, hc, hm', h8, heq]

lemma enhConsume_bound (maxResults : Nat) :
    ∀ (l : List String) (links : List String),
      links.length < maxResults →
      (enhConsume maxResults links l).1.length ≤ maxResults := by
  intro l
  induction l with
  | nil => intro links hlt; exact le_of_lt hlt
  | cons href tl ih =>
    intro links hlt
    rcases Bool.eq_false_or_eq_true (href != "" && !(links.contains href))
      with hcond | hcond
    · simp only [enhConsume, hcond]
      rw [if_pos trivial]
      by_cases htar : maxResults ≤ (links ++ [href]).length
      · rw [if_pos htar]
        dsimp only
        simp only [List.length_append, List.length_singleton] at htar ⊢
        omega
      · rw [if_neg htar]
        have hnext := ih (links ++ [href])
          (by
            simp only [List.length_append, List.length_singleton] at htar ⊢
            omega)
        dsimp only
        exact hnext
    · simp only [enhConsume, hcond]
      rw [if_neg (by simp)]
      exact ih links hlt

lemma enhLoop_bound (oracle : Nat → List String) (maxResults : Nat) :
    ∀ (fuel : Nat) (st : EnhState), st.allLinks.length ≤ maxResults →
      ((enhLoop oracle maxResults fuel st).1.length ≤ maxResults) ∧
      ((enhLoop oracle maxResults fuel st).2.1 = HarvestExit.target →
        (enhLoop oracle maxResults fuel st).1.length = maxResults) ∧
      ((enhLoop oracle maxResults fuel st).2.2.allLinks.length ≤ maxResults) := by
  intro fuel
  induction fuel with
  | zero =>
    intro st hle
    refine ⟨?_, fun htar => by simp [enhLoop] at htar, hle⟩
    simp only [enhLoop, List.length_take]
    omega
  | succ fuel ih =>
    intro st hle
    by_cases hhead : maxResults ≤ st.allLinks.length
    · have heq : st.allLinks.length = maxResults := Nat.le_antisymm hle hhead
      simp only [enhLoop]
      rw [if_pos hhead]
      refine ⟨?_, fun _ => ?_, hle⟩ <;> simp [List.length_take, heq]
    · have hlt : st.allLinks.length < maxResults := by omega
      have hcb := enhConsume_bound maxResults (oracle st.scrollAttempts)
        st.allLinks hlt
      simp only [enhLoop]
      rw [if_neg hhead]
      by_cases htar : maxResults ≤
          (enhConsume maxResults st.allLinks (oracle st.scrollAttempts)).1.length
      · rw [if_pos htar]
        have heq : (enhConsume maxResults st.allLinks
            (oracle st.scrollAttempts)).1.length = maxResults :=
          Nat.le_antisymm hcb htar
        dsimp only
        refine ⟨?_, fun _ => ?_, ?_⟩ <;> simp [List.length_take, heq]
      · rw [if_neg htar]
        have hlt1 : (enhConsume maxResults st.allLinks
            (oracle st.scrollAttempts)).1.length < maxResults := by omega
        rcases Bool.eq_false_or_eq_true
            ((enhConsume maxResults st.allLinks (oracle st.scrollAttempts)).2
              == 0) with hz | hz
        · simp only [hz]
          rw [if_pos trivial]
          by_cases h8 : enhMaxPatience ≤ st.cnt + 1
          · rw [if_pos h8]
            dsimp only
            refine ⟨?_, fun htar2 => ?_, ?_⟩
            · simp only [List.length_take]
              omega
            · simp at htar2
            · exact le_of_lt hlt1
          · rw [if_neg h8]
            exact ih _ (le_of_lt hlt1)
        · simp only [hz]
          rw [if_neg (by simp)]
          exact ih _ (le_of_lt hlt1)

lemma endCnt_append (r : IterRec) :
    ∀ (l : List IterRec) (c : Nat), endCnt c (l ++ [r]) = r.cntAfter := by
  intro l
  induction l with
  | nil => intro c; rfl
  | cons x xs ih => intro c; exact ih x.cntAfter

lemma traceChain_append (r : IterRec) :
    ∀ (l : List IterRec) (c : Nat), traceChain c l →
      ((r.delta = 0 ∧ r.cntAfter = endCnt c l + 1 ∧
          r.firedTier = fireTier (endCnt c l + 1)) ∨
        (r.delta ≠ 0 ∧ r.cntAfter = 0 ∧ r.firedTier = none)) →
      traceChain c (l ++ [r]) := by
  intro l
  induction l with
  | nil =>
    intro c _ hr
    exact ⟨hr, trivial⟩
  | cons x xs ih =>
    intro c hchain hr
    obtain ⟨hx, hxs⟩ := hchain
    exact ⟨hx, ih x.cntAfter hxs hr⟩

lemma traceChain_split :
    ∀ (l1 l2 : List IterRec) (c : Nat), traceChain c (l1 ++ l2) →
      traceChain (endCnt c l1) l2 := by
  intro l1
  induction l1 with
  | nil => intro l2 c h; exact h
  | cons x xs ih =>
    intro l2 c h
    obtain ⟨_, hrest⟩ := h
    exact ih l2 x.cntAfter hrest

lemma traceChain_fired :
    ∀ (l : List IterRec) (c : Nat), traceChain c l →
      ∀ r ∈ l, r.firedTier = fireTier r.cntAfter := by
  intro l
  induction l with
  | nil => intro c _ r hr; cases hr
  | cons x xs ih =>
    intro c hchain r hr
    obtain ⟨hx, hxs⟩ := hchain
    rcases List.mem_cons.mp hr with rfl | hr
    · rcases hx with ⟨_, hcnt, hfire⟩ | ⟨_, hcnt, hfire⟩
      · rw [hfire, hcnt]
      · rw [hfire, hcnt]
        rfl
    · exact ih x.cntAfter hxs r hr

lemma traceChain_reset :
    ∀ (l : List IterRec) (c : Nat), traceChain c l →
      ∀ r ∈ l, r.delta ≠ 0 → r.cntAfter = 0 := by
  intro l
  induction l with
  | nil => intro c _ r hr; cases hr
  | cons x xs ih =>
    intro c hchain r hr hδ
    obtain ⟨hx, hxs⟩ := hchain
    rcases List.mem_cons.mp hr with rfl | hr
    · rcases hx with ⟨h0, _, _⟩ | ⟨_, hcnt, _⟩
      · exact absurd h0 hδ
      · exact hcnt
    · exact ih x.cntAfter hxs r hr hδ

lemma traceChain_run :
    ∀ (mid : List IterRec) (r2 : IterRec) (post : List IterRec) (c : Nat),
      traceChain c (mid ++ r2 :: post) →
      (∀ rk ∈ mid, rk.delta = 0) → r2.delta = 0 →
      r2.cntAfter = c + mid.length + 1 := by
  intro mid
  induction mid with
  | nil =>
    intro r2 post c hchain _ hδ
    obtain ⟨h2, _⟩ := hchain
    rcases h2 with ⟨_, hcnt, _⟩ | ⟨hne, _, _⟩
    · simpa using hcnt
    · exact absurd hδ hne
  | cons x xs ih =>
    intro r2 post c hchain hmid hδ
    obtain ⟨hx, hrest⟩ := hchain
    rcases hx with ⟨_, hcnt, _⟩ | ⟨hne, _, _⟩
    · have := ih r2 post x.cntAfter hrest
        (fun rk hrk => hmid rk (List.mem_cons_of_mem _ hrk)) hδ
      rw [this, hcnt]
      simp only [List.length_cons]
      omega
    · exact absurd (hmid x (List.mem_cons_self _ _)) hne

lemma fireTier_cases :
    ∀ (cnt t : Nat), fireTier cnt = some t →
      (cnt = 3 ∧ t = 1) ∨ (cnt = 6 ∧ t = 2) ∨ (cnt = 10 ∧ t = 3) := by
  intro cnt t h
  unfold fireTier at h
  split_ifs at h with h1 h2 h3
  · exact Or.inl ⟨by simpa using h1, by simpa using h.symm⟩
  · exact Or.inr (Or.inl ⟨by simpa using h2, by simpa using h.symm⟩)
  · exact Or.inr (Or.inr ⟨by simpa using h3, by simpa using h.symm⟩)

lemma fireTier_iff (cnt : Nat) :
    (fireTier cnt = some 1 ↔ cnt = 3) ∧ (fireTier cnt = some 2 ↔ cnt = 6) ∧
      (fireTier cnt = some 3 ↔ cnt = 10) := by
  unfold fireTier
  split_ifs with h1 h2 h3 <;> simp_all

lemma enhLoop_chain (oracle : Nat → List String) (maxResults : Nat) :
    ∀ (fuel : Nat) (st : EnhState) (c : Nat),
      traceChain c st.trace → endCnt c st.trace = st.cnt →
      traceChain c (enhLoop oracle maxResults fuel st).2.2.trace := by
  intro fuel
  induction fuel with
  | zero => intro st c hchain _; exact hchain
  | succ fuel ih =>
    intro st c hchain hend
    simp only [enhLoop]
    by_cases hhead : maxResults ≤ st.allLinks.length
    · rw [if_pos hhead]
      exact hchain
    · rw [if_neg hhead]
      by_cases htar : maxResults ≤
          (enhConsume maxResults st.allLinks (oracle st.scrollAttempts)).1.length
      · rw [if_pos htar]
        exact hchain
      · rw [if_neg htar]
        rcases Bool.eq_false_or_eq_true
            ((enhConsume maxResults st.allLinks (oracle st.scrollAttempts)).2
              == 0) with hz | hz
        · have hz' : (enhConsume maxResults st.allLinks
              (oracle st.scrollAttempts)).2 = 0 := by simpa using hz
          have happ : traceChain c (st.trace ++
              [⟨(enhConsume maxResults st.allLinks (oracle st.scrollAttempts)).2,
                st.cnt + 1, fireTier (st.cnt + 1)⟩]) := by
            apply traceChain_append _ _ _ hchain
            left
            refine ⟨hz', ?_, ?_⟩ <;> simp [hend]
          simp only [hz]
          rw [if_pos trivial]
          by_cases h8 : enhMaxPatience ≤ st.cnt + 1
          · rw [if_pos h8]
            exact happ
          · rw [if_neg h8]
            apply ih _ c happ
            show endCnt c (st.trace ++
              [⟨(enhConsume maxResults st.allLinks (oracle st.scrollAttempts)).2,
                st.cnt + 1, fireTier (st.cnt + 1)⟩]) = st.cnt + 1
            rw [endCnt_append]
        · have hz' : (enhConsume maxResults st.allLinks
              (oracle st.scrollAttempts)).2 ≠ 0 := by simpa using hz
          have happ := traceChain_append
            ⟨(enhConsume maxResults st.allLinks (oracle st.scrollAttempts)).2,
              0, none⟩ st.trace c hchain (Or.inr ⟨hz', rfl, rfl⟩)
          simp only [hz]
          rw [if_neg (by simp)]
          apply ih _ c happ
          show endCnt c (st.trace ++
            [⟨(enhConsume maxResults st.allLinks (oracle st.scrollAttempts)).2,
              0, none⟩]) = 0
          rw [endCnt_append]

/-! ### Lemmas about the harvest session -/

lemma itemStep_eq (st : SessState) (o : ExtractOutcome)
    (hcf : st.contactsFound = none) :
    itemStep st o =
      { results := st.results ++ (usefulRecordOf o).toList,
        successful := st.successful + (if itemFails o then 0 else 1),
        failed := st.failed + (if itemFails o then 1 else 0)
          + (if usefulWithContact o then 1 else 0),
        contactsFound := none } := by
  cases o with
  | raises =>
    simp [itemStep, itemBody, extractBusinessData, itemFails, usefulWithContact,
      usefulRecordOf, hcf]
  | noData =>
    simp [itemStep, itemBody, extractBusinessData, itemFails, usefulWithContact,
      usefulRecordOf, hcf]
  | record r =>
    rcases Bool.eq_false_or_eq_true (r.name != "Unknown Business") with hn | hn
    · have hn' : ¬ (r.name = "Unknown Business") := by simpa using hn
      rcases Bool.eq_false_or_eq_true (r.email.isSome || r.mobile.isSome)
        with hc | hc
      · simp [itemStep, itemBody, extractBusinessData, itemFails,
          usefulWithContact, usefulRecordOf, hn, hn', hc, hcf]
      · simp [itemStep, itemBody, extractBusinessData, itemFails,
          usefulWithContact, usefulRecordOf, hn, hn', hc, hcf]
    · have hn' : r.name = "Unknown Business" := by simpa using hn
      simp [itemStep, itemBody, extractBusinessData, itemFails,
        usefulWithContact, usefulRecordOf, hn, hn', hcf]

lemma sessLoop_go :
    ∀ (outcomes : List ExtractOutcome) (st : SessState),
      st.contactsFound = none →
      List.foldl itemStep st outcomes =
        { results := st.results ++ outcomes.filterMap usefulRecordOf,
          successful := st.successful
            + outcomes.countP (fun o => !(itemFails o)),
          failed := st.failed + outcomes.countP itemFails
            + outcomes.countP usefulWithContact,
          contactsFound := none } := by
  intro outcomes
  induction outcomes with
  | nil =>
    intro st hcf
    rcases st with ⟨res, succ, fl, cf⟩
    simp only at hcf
    subst hcf
    simp
  | cons o tl ih =>
    intro st hcf
    rw [List.foldl_cons, itemStep_eq st o hcf, ih _ rfl]
    simp only [SessState.mk.injEq]
    refine ⟨?_, ?_, ?_, trivial⟩
    · cases h : usefulRecordOf o <;>
        simp [List.filterMap_cons, h, List.append_assoc]
    · rcases Bool.eq_false_or_eq_true (itemFails o) with hf | hf <;>
        · simp [List.countP_cons, hf]
          try omega
    · rcases Bool.eq_false_or_eq_true (itemFails o) with hf | hf <;>
        rcases Bool.eq_false_or_eq_true (usefulWithContact o) with hw | hw <;>
        · simp [List.countP_cons, hf, hw]
          try omega

lemma sessLoop_eq (outcomes : List ExtractOutcome) :
    sessLoop outcomes =
      { results := outcomes.filterMap usefulRecordOf,
        successful := outcomes.countP (fun o => !(itemFails o)),
        failed := outcomes.countP itemFails
          + outcomes.countP usefulWithContact,
        contactsFound := none } := by
  have h := sessLoop_go outcomes sessInit rfl
  simpa [sessLoop, sessInit] using h

lemma runExtraction_always_empty (outcomes : List ExtractOutcome) :
    runExtraction outcomes = Except.ok [] := by
  unfold runExtraction runExtractionBody
  rw [sessLoop_eq]

/-! ### Branch lemmas of the phone normalizer at the `formatPhoneNumber`
level, shared by several claims -/

lemma formatPhone_len10_lead (p : String)
    (hlen : (stripNonDigits p.data).length = 10)
    (hl : leadingCheck (stripNonDigits p.data) 0 = true) :
    formatPhoneNumber (some p)
      = some (String.mk ('+' :: '9' :: '1' :: stripNonDigits p.data)) := by
  have hd : stripNonDigits p.data ≠ [] := by
    intro h
    rw [h] at hlen
    simp at hlen
  have hp : p ≠ "" := by
    intro h
    subst h
    simp [stripNonDigits] at hlen
  rw [formatPhoneNumber_some_eq p hp hd, formatDigits_len10_lead hlen hl]
  rfl

lemma formatPhone_fallback (p : String)
    (hlen : (stripNonDigits p.data).length = 10)
    (hl : leadingCheck (stripNonDigits p.data) 0 = false)
    (hcc : hasCountryCode (stripNonDigits p.data) = false) :
    formatPhoneNumber (some p)
      = some (String.mk ('+' :: '1' :: stripNonDigits p.data)) := by
  have hd : stripNonDigits p.data ≠ [] := by
    intro h
    rw [h] at hlen
    simp at hlen
  have hp : p ≠ "" := by
    intro h
    subst h
    simp [stripNonDigits] at hlen
  rw [formatPhoneNumber_some_eq p hp hd, formatDigits_fallback hlen hl hcc]
  rfl

lemma formatPhone_short (p : String)
    (hlen : (stripNonDigits p.data).length < 10) :
    formatPhoneNumber (some p) = none := by
  by_cases hp : p = ""
  · simp [formatPhoneNumber, hp]
  · by_cases hd : stripNonDigits p.data = []
    · simp [formatPhoneNumber, hp, hd]
    · rw [formatPhoneNumber_some_eq p hp hd, formatDigits_short hlen]
      rfl

/-! ## Claim theorems -/

/-- C1: For every run of the harvest loop in which no iteration ever
discovers a new reference (delta is always 0), the loop terminates, and it
terminates by reaching the consecutive-no-progress patience ceiling
strictly before reaching the iteration ceiling (`max_scrolls`); it never
loops forever.  Both loop variants are covered: the optimized loop stops
with `patience = 15` after 15 of its 50 allowed iterations, and the
enhanced loop stops with `no_new_content_count = 8` after 8 of its at
least 20 allowed iterations. -/
theorem harvest_stub_terminates_at_patience_ceiling :
    (∀ (primary : Nat → List (Option String))
       (fallbacks : Nat → List (List (Option String)))
       (seen0 : List String) (maxResults : Nat),
      0 < maxResults →
      (∀ n, (primary n).all optNotAddable = true) →
      (∀ n, ∀ l ∈ fallbacks n, l.all optNotAddable = true) →
      (optHarvest primary fallbacks seen0 maxResults).2.1
          = HarvestExit.patience ∧
      (optHarvest primary fallbacks seen0 maxResults).2.2.patience
          = optMaxPatience ∧
      (optHarvest primary fallbacks seen0 maxResults).2.2.scrollCount + 1
          = optMaxPatience ∧
      (optHarvest primary fallbacks seen0 maxResults).2.2.scrollCount
          < optMaxScrolls ∧
      (optHarvest primary fallbacks seen0 maxResults).1 = []) ∧
    (∀ (oracle : Nat → List String) (maxResults : Nat),
      0 < maxResults →
      (∀ n, (oracle n).all (fun href => href == "") = true) →
      ∃ final : EnhState,
        enhHarvest oracle maxResults = ([], HarvestExit.patience, final) ∧
        final.cnt = enhMaxPatience ∧
        final.scrollAttempts + 1 = enhMaxPatience ∧
        final.scrollAttempts < enhMaxScrolls maxResults) := by
  constructor
  · intro primary fallbacks seen0 maxResults hm hp hf
    have h := optLoop_stub primary fallbacks maxResults hm hp hf optMaxScrolls
      { allLinks := [], seenLinks := seen0, patience := 0, scrollCount := 0 }
      rfl (by simp [optMaxPatience]) (by simp [optMaxPatience, optMaxScrolls])
    unfold optHarvest
    rw [h]
    refine ⟨rfl, rfl, ?_, ?_, rfl⟩ <;> simp [optMaxPatience, optMaxScrolls]
  · intro oracle maxResults hm ho
    obtain ⟨final, heq, hfc, hfs, -⟩ := enhLoop_stub oracle maxResults hm ho
      (enhMaxScrolls maxResults)
      { allLinks := [], cnt := 0, scrollAttempts := 0, trace := [] }
      rfl (by simp [enhMaxPatience])
      (by simp [enhMaxPatience, enhMaxScrolls])
    refine ⟨final, heq, hfc, ?_, ?_⟩
    · have hfs' : final.scrollAttempts = 0 + (enhMaxPatience - 1 - 0) := hfs
      simp only [enhMaxPatience] at hfs' ⊢
      omega
    · have hfs' : final.scrollAttempts = 0 + (enhMaxPatience - 1 - 0) := hfs
      simp only [enhMaxPatience, enhMaxScrolls] at hfs' ⊢
      omega

/-- Witness for C1 at a concrete stub driver that never yields anything. -/
theorem harvest_stub_terminates_at_patience_ceiling_witness :
    0 < 3 ∧
    (optHarvest (fun _ => []) (fun _ => []) [] 3).2.1
      = HarvestExit.patience ∧
    (∃ final : EnhState,
      enhHarvest (fun _ => []) 3 = ([], HarvestExit.patience, final)) := by
  refine ⟨by decide, ?_, ?_⟩
  · exact (harvest_stub_terminates_at_patience_ceiling.1 (fun _ => [])
      (fun _ => []) [] 3 (by decide) (fun n => by simp)
      (fun n l hl => by simp at hl)).1
  · obtain ⟨final, heq, -, -, -⟩ :=
      harvest_stub_terminates_at_patience_ceiling.2 (fun _ => []) 3
        (by decide) (fun n => by simp)
    exact ⟨final, heq⟩

/-- C2: For every target count and every sequence of discovered references,
the harvest loop stops as soon as the store reaches the target count — a
target exit happens with the store at exactly the target size — and at no
point does the collected reference count (returned or in the final store)
exceed the target count.  Both loop variants are covered. -/
theorem harvest_never_exceeds_target :
    (∀ (primary : Nat → List (Option String))
       (fallbacks : Nat → List (List (Option String)))
       (seen0 : List String) (maxResults : Nat),
      (optHarvest primary fallbacks seen0 maxResults).1.length ≤ maxResults ∧
      ((optHarvest primary fallbacks seen0 maxResults).2.1
          = HarvestExit.target →
        (optHarvest primary fallbacks seen0 maxResults).1.length
          = maxResults) ∧
      (optHarvest primary fallbacks seen0 maxResults).2.2.allLinks.length
        ≤ maxResults) ∧
    (∀ (oracle : Nat → List String) (maxResults : Nat),
      (enhHarvest oracle maxResults).1.length ≤ maxResults ∧
      ((enhHarvest oracle maxResults).2.1 = HarvestExit.target →
        (enhHarvest oracle maxResults).1.length = maxResults) ∧
      (enhHarvest oracle maxResults).2.2.allLinks.length ≤ maxResults) := by
  constructor
  · intro primary fallbacks seen0 maxResults
    exact optLoop_bound primary fallbacks maxResults optMaxScrolls
      { allLinks := [], seenLinks := seen0, patience := 0, scrollCount := 0 }
      (by simp)
  · intro oracle maxResults
    exact enhLoop_bound oracle maxResults (enhMaxScrolls maxResults)
      { allLinks := [], cnt := 0, scrollAttempts := 0, trace := [] }
      (by simp)

/-- Witness for C2 at a stub driver that reaches the target. -/
theorem harvest_never_exceeds_target_witness :
    (enhHarvest c9Oracle 5).2.1 = HarvestExit.target ∧
    (enhHarvest c9Oracle 5).1.length = 5 ∧
    (enhHarvest c9Oracle 5).1.length ≤ 5 := by
  refine ⟨by decide, ?_, ?_⟩
  · exact (harvest_never_exceeds_target.2 c9Oracle 5).2.1 (by decide)
  · exact (harvest_never_exceeds_target.2 c9Oracle 5).1

/-- C3 counterexample: on a store that already contains the reference,
adding it twice increases the size by 0, not by exactly 1 — the claim as
stated fails for such states. -/
theorem store_add_twice_counterexample :
    ¬ (storeSize (storeAdd (storeAdd ["a"] "a") "a")
        = storeSize ["a"] + 1) := by decide

/-- C3 (amended): the second add of the same reference is always a no-op,
and when the reference is not already stored, adding it twice increases
the size by exactly 1 in total; re-discovery never creates a duplicate. -/
theorem store_add_idempotent :
    ∀ (store : List String) (ref : String),
      storeAdd (storeAdd store ref) ref = storeAdd store ref ∧
      (store.contains ref = false →
        storeSize (storeAdd (storeAdd store ref) ref)
          = storeSize store + 1) :=
  fun store ref =>
    ⟨storeAdd_absorb store ref,
      fun h => by rw [storeAdd_absorb]; exact storeAdd_size_new h⟩

/-- Witness for C3 (amended) at a fresh reference. -/
theorem store_add_idempotent_witness :
    ([] : List String).contains "a" = false ∧
    storeSize (storeAdd (storeAdd [] "a") "a") = storeSize [] + 1 :=
  ⟨by decide, (store_add_idempotent [] "a").2 (by decide)⟩

/-- C4: For every field category and every view, `extractField` returns the
value produced by the first strategy in declaration order whose selector
matches and whose parsed value passes the category validity predicate —
even when a later strategy would also succeed with a different value — and
when every strategy fails, it returns the explicit absent value
(`'Unknown Business'` for names, `None` for ratings) without raising. -/
theorem extract_field_first_strategy_wins :
    (∀ (results : List (Option String)) (parse : String → Option String)
       (i : Nat) (t v : String),
      results.get? i = some (some t) → parse t = some v →
      (∀ j, j < i → ∀ x, results.get? j = some x → stratFails parse x) →
      extractField results parse = some v) ∧
    (∀ (results : List (Option String)) (parse : String → Option String),
      (∀ x ∈ results, stratFails parse x) →
      extractField results parse = none) ∧
    (∀ view : String → Option String,
      (∀ s ∈ nameSelectors, stratFails parseName (view s)) →
      getName view = "Unknown Business") ∧
    (∀ view : String → Option String,
      (∀ s ∈ ratingSelectors, stratFails parseRating (view s)) →
      getRating view = none) :=
  ⟨fun results parse => extractField_first parse results,
    fun results parse => extractField_none parse results,
    getName_absent, getRating_absent⟩

/-- Witness for C4: the second strategy is the first valid one and wins
even though the third one would also succeed, with a different value. -/
theorem extract_field_first_strategy_wins_witness :
    [none, some " ab ", some "zzzz"].get? 1 = some (some " ab ") ∧
    parseName " ab " = some "ab" ∧
    parseName "zzzz" = some "zzzz" ∧
    extractField [none, some " ab ", some "zzzz"] parseName = some "ab" := by
  refine ⟨rfl, by decide, by decide, ?_⟩
  exact extract_field_first_strategy_wins.1 [none, some " ab ", some "zzzz"]
    parseName 1 " ab " "ab" rfl (by decide)
    (fun j hj x hx => by
      interval_cases j
      · simp at hx
        subst hx
        trivial)

/-- C5: phone normalization first strips all non-digit characters; when
exactly 10 digits remain and the leading digit is in the validated set
`'6789'`, it returns the 10 digits prefixed with the synthesized country
code `+91`; when exactly 10 digits remain and no recognized pattern
applies (leading digit not validated, no known international calling-code
prefix), it returns them prefixed with the fallback `+1`; and when fewer
than 10 digits remain it returns absent. -/
theorem phone_format_branches :
    ∀ p : String,
      ((stripNonDigits p.data).length = 10 →
        leadingCheck (stripNonDigits p.data) 0 = true →
        formatPhoneNumber (some p)
          = some (String.mk ('+' :: '9' :: '1' :: stripNonDigits p.data))) ∧
      ((stripNonDigits p.data).length = 10 →
        leadingCheck (stripNonDigits p.data) 0 = false →
        hasCountryCode (stripNonDigits p.data) = false →
        formatPhoneNumber (some p)
          = some (String.mk ('+' :: '1' :: stripNonDigits p.data))) ∧
      ((stripNonDigits p.data).length < 10 →
        formatPhoneNumber (some p) = none) :=
  fun p =>
    ⟨formatPhone_len10_lead p, formatPhone_fallback p, formatPhone_short p⟩

/-- Witness for C5 on `"98765 43210"` (validated leading digit),
`"0123456789"` (fallback) and `"123"` (absent). -/
theorem phone_format_branches_witness :
    ((stripNonDigits "98765 43210".data).length = 10 ∧
      leadingCheck (stripNonDigits "98765 43210".data) 0 = true ∧
      formatPhoneNumber (some "98765 43210")
        = some (String.mk
            ('+' :: '9' :: '1' :: stripNonDigits "98765 43210".data))) ∧
    ((stripNonDigits "0123456789".data).length = 10 ∧
      leadingCheck (stripNonDigits "0123456789".data) 0 = false ∧
      hasCountryCode (stripNonDigits "0123456789".data) = false ∧
      formatPhoneNumber (some "0123456789")
        = some (String.mk ('+' :: '1' :: stripNonDigits "0123456789".data))) ∧
    ((stripNonDigits "123".data).length < 10 ∧
      formatPhoneNumber (some "123") = none) := by
  refine ⟨⟨by decide, by decide, ?_⟩, ⟨by decide, by decide, by decide, ?_⟩,
    by decide, ?_⟩
  · exact (phone_format_branches "98765 43210").1 (by decide) (by decide)
  · exact (phone_format_branches "0123456789").2.1 (by decide) (by decide)
      (by decide)
  · exact (phone_format_branches "123").2.2 (by decide)

/-- C6: phone normalization is total — the exception-transparent embedding
never returns an error — and idempotent; in particular a 10-digit input
with a validated leading digit normalizes to the `+91` prefix plus exactly
the stripped 10 digits, and an input stripping to fewer than 10 digits
normalizes to absent. -/
theorem phone_format_total_idempotent :
    (∀ x : Option String,
      formatPhoneNumberE x = Except.ok (formatPhoneNumber x)) ∧
    (∀ x : Option String,
      formatPhoneNumber (formatPhoneNumber x) = formatPhoneNumber x) ∧
    (∀ p : String, (stripNonDigits p.data).length = 10 →
      leadingCheck (stripNonDigits p.data) 0 = true →
      formatPhoneNumber (some p)
        = some (String.mk ('+' :: '9' :: '1' :: stripNonDigits p.data))) ∧
    (∀ p : String, (stripNonDigits p.data).length < 10 →
      formatPhoneNumber (some p) = none) :=
  ⟨formatPhoneNumberE_ok, formatPhoneNumber_idem,
    formatPhone_len10_lead, formatPhone_short⟩

/-- Witness for C6 on the spec's own examples. -/
theorem phone_format_total_idempotent_witness :
    (stripNonDigits "98765 43210".data).length = 10 ∧
    leadingCheck (stripNonDigits "98765 43210".data) 0 = true ∧
    formatPhoneNumber (some "98765 43210")
      = some (String.mk
          ('+' :: '9' :: '1' :: stripNonDigits "98765 43210".data)) ∧
    (stripNonDigits "123".data).length < 10 ∧
    formatPhoneNumber (some "123") = none :=
  ⟨by decide, by decide,
    phone_format_total_idempotent.2.2.1 "98765 43210" (by decide) (by decide),
    by decide,
    phone_format_total_idempotent.2.2.2 "123" (by decide)⟩

/-- C7: in every harvest run of the enhanced loop, a recovery action fires
exactly when the consecutive-no-progress counter reaches the configured
thresholds (3: alternate load-more, tier 1; 6: full reload and re-scroll,
tier 2; 10: zoom/view-reset, tier 3), the fired escalation tiers are
strictly increasing between resets (never de-escalating mid-run), and the
counter resets to 0 (tier 0) the moment any iteration discovers a new
reference. -/
theorem escalation_fires_exactly_at_thresholds :
    ∀ (oracle : Nat → List String) (maxResults : Nat),
      (∀ r ∈ (enhHarvest oracle maxResults).2.2.trace,
        (r.firedTier = some 1 ↔ r.cntAfter = 3) ∧
        (r.firedTier = some 2 ↔ r.cntAfter = 6) ∧
        (r.firedTier = some 3 ↔ r.cntAfter = 10)) ∧
      (∀ r ∈ (enhHarvest oracle maxResults).2.2.trace,
        r.delta ≠ 0 → r.cntAfter = 0) ∧
      (∀ (pre mid post : List IterRec) (r1 r2 : IterRec) (a b : Nat),
        (enhHarvest oracle maxResults).2.2.trace
          = pre ++ r1 :: (mid ++ r2 :: post) →
        r1.firedTier = some a → r2.firedTier = some b →
        (∀ rk ∈ mid, rk.delta = 0) → a < b) := by
  intro oracle maxResults
  have hchain : traceChain 0 (enhHarvest oracle maxResults).2.2.trace :=
    enhLoop_chain oracle maxResults _ _ 0 trivial rfl
  refine ⟨?_, ?_, ?_⟩
  · intro r hr
    have hf := traceChain_fired _ 0 hchain r hr
    rw [hf]
    exact fireTier_iff r.cntAfter
  · exact fun r hr => traceChain_reset _ 0 hchain r hr
  · intro pre mid post r1 r2 a b htr h1 h2 hmid
    rw [htr] at hchain
    have hch2 := traceChain_split pre _ 0 hchain
    obtain ⟨hd1, hrest⟩ := hch2
    rcases hd1 with ⟨hδ1, hcnt1, hfire1⟩ | ⟨-, -, hfire1⟩
    swap
    · rw [hfire1] at h1
      cases h1
    have hch3 := traceChain_split mid _ r1.cntAfter hrest
    obtain ⟨hd2, -⟩ := hch3
    rcases hd2 with ⟨hδ2, hcnt2, hfire2⟩ | ⟨-, -, hfire2⟩
    swap
    · rw [hfire2] at h2
      cases h2
    have hrun := traceChain_run mid r2 post r1.cntAfter hrest hmid hδ2
    have ha : fireTier r1.cntAfter = some a := by
      rw [hcnt1, ← hfire1]
      exact h1
    have hb : fireTier r2.cntAfter = some b := by
      rw [hcnt2, ← hfire2]
      exact h2
    rcases fireTier_cases _ _ ha with ⟨hc1, ha1⟩ | ⟨hc1, ha1⟩ | ⟨hc1, ha1⟩ <;>
      rcases fireTier_cases _ _ hb with ⟨hc2, hb1⟩ | ⟨hc2, hb1⟩ | ⟨hc2, hb1⟩ <;>
      omega

/-- Witness for C7: the stub run fires tier 1 at counter 3 and tier 2 at
counter 6, in strictly increasing order. -/
theorem escalation_fires_exactly_at_thresholds_witness :
    (enhHarvest (fun _ => []) 5).2.2.trace
      = [⟨0, 1, none⟩, ⟨0, 2, none⟩] ++ (⟨0, 3, some 1⟩ : IterRec) ::
        ([⟨0, 4, none⟩, ⟨0, 5, none⟩] ++ (⟨0, 6, some 2⟩ : IterRec) ::
          [⟨0, 7, none⟩, ⟨0, 8, none⟩]) ∧
    (1 : Nat) < 2 := by
  refine ⟨by decide, ?_⟩
  exact (escalation_fires_exactly_at_thresholds (fun _ => []) 5).2.2
    [⟨0, 1, none⟩, ⟨0, 2, none⟩] [⟨0, 4, none⟩, ⟨0, 5, none⟩]
    [⟨0, 7, none⟩, ⟨0, 8, none⟩] ⟨0, 3, some 1⟩ ⟨0, 6, some 2⟩ 1 2
    (by decide) rfl rfl (by decide)

/-- C8: for every list of discovered references and every per-item
extraction behaviour (including extractions that raise), the session run
returns a (possibly empty) list of records to its caller — all raise
points are behind a catch, so `run_extraction` never surfaces an
exception — each per-item failure is counted in `failed` and the loop
continues through the whole reference list.  (The exact `failed` count
also includes the items whose contact bookkeeping hits the missing
`contacts_found` attribute; see C9.) -/
theorem session_never_propagates :
    ∀ outcomes : List ExtractOutcome,
      (∃ l : List SessRecord, runExtraction outcomes = Except.ok l) ∧
      (sessLoop outcomes).failed
        = outcomes.countP itemFails + outcomes.countP usefulWithContact ∧
      (sessLoop outcomes).successful
        = outcomes.countP (fun o => !(itemFails o)) ∧
      (sessLoop outcomes).results = outcomes.filterMap usefulRecordOf := by
  intro outcomes
  rw [sessLoop_eq]
  exact ⟨⟨[], runExtraction_always_empty outcomes⟩, rfl, rfl, rfl⟩

/-- C9: the end-to-end scenario (targetCount 5, stub discovery yielding
R1..R5 over three iterations, detail stub giving valid name and phone for
R1, R3, R5 and the sentinel name for R2, R4) evaluated on the code:
discovery does collect the five references, and the loop appends the three
useful records and counts successful = 3, but `self.contacts_found` is
never initialized in `__init__`, so each contact increment raises
`AttributeError` (failed ends at 5, not 2, and contactsFound is never 3),
and the final-summary read of the attribute raises again, making
`run_extraction` return `[]` instead of the three records. -/
theorem session_scenario_contacts_bug :
    (enhHarvest c9Oracle 5).1 = ["R1", "R2", "R3", "R4", "R5"] ∧
    (enhHarvest c9Oracle 5).2.1 = HarvestExit.target ∧
    (sessLoop c9Outcomes).successful = 3 ∧
    (sessLoop c9Outcomes).failed = 5 ∧
    (sessLoop c9Outcomes).results
      = [⟨"Business One", some "+919876543210", none⟩,
         ⟨"Business Three", some "+919876543211", none⟩,
         ⟨"Business Five", some "+919876543212", none⟩] ∧
    (sessLoop c9Outcomes).contactsFound = none ∧
    runExtraction c9Outcomes = Except.ok [] := by
  refine ⟨by decide, by decide, by decide, by decide, by decide, by decide,
    rfl⟩

/-- C10 counterexample: when the view container cannot be located, the
window scroll runs, but with the random draw at or below 0.8 the
simulated key-based paging is not attempted in that iteration — the
claimed in-order fallback to key paging does not happen. -/
theorem scroll_fallback_counterexample :
    (scrollOptimized ⟨false, true, false, true⟩).1
      = [ScrollAction.windowScroll] ∧
    ¬ (ScrollAction.keyPageDown
        ∈ (scrollOptimized ⟨false, true, false, true⟩).1) := by decide

/-- C10 (amended): in every iteration in which the view container cannot
be located, `_scroll_optimized` falls back to window-level scrolling, and
additionally attempts simulated key-based paging only when the random
draw exceeds 0.8 (a 20% chance) and the body element is found — in that
order within the same iteration; no scroll failure ever escapes
`_scroll_optimized`. -/
theorem scroll_fallback_behavior :
    ∀ env : ScrollEnv,
      (scrollOptimized env).2 = false ∧
      (env.panelFound = false → env.windowScrollOk = true →
        ScrollAction.windowScroll ∈ (scrollOptimized env).1 ∧
        (env.randAbove = true → env.bodyFound = true →
          (scrollOptimized env).1
            = [ScrollAction.windowScroll, ScrollAction.keyPageDown])) := by
  rintro ⟨p, w, r, b⟩
  cases p <;> cases w <;> cases r <;> cases b <;>
    simp [scrollOptimized]

/-- Witness for C10 (amended): panel missing, window scroll works, random
draw above 0.8, body found. -/
theorem scroll_fallback_behavior_witness :
    (⟨false, true, true, true⟩ : ScrollEnv).panelFound = false ∧
    (⟨false, true, true, true⟩ : ScrollEnv).windowScrollOk = true ∧
    (scrollOptimized ⟨false, true, true, true⟩).1
      = [ScrollAction.windowScroll, ScrollAction.keyPageDown] :=
  ⟨rfl, rfl,
    ((scroll_fallback_behavior ⟨false, true, true, true⟩).2 rfl rfl).2
      rfl rfl⟩
